import Mathlib

/-
Verification development for the VAMPIRE dipole-field module, the
standard-deviation statistic, and the vio input matching functions.

The C++ sources are embedded shallowly:
* pure numeric code is translated to functions over `ℚ` (exact rationals
  standing for the double computations) or `ℝ` where the constant π occurs;
* the global mutable module state of `dipole` becomes an explicit state
  record `dipole.DipoleState`, and `dipole::initialize` becomes a state
  transition that additionally emits a trace of the externally visible
  steps it performs (allocation, tensor build, barriers, flag set, field
  evaluation, demagnetising diagnostic);
* C++ `std::vector` reads `v[i]` become `List.getD v i 0`.
-/

--------------------------------------------------------------------------------
-- vio module : src/src/vio/interface.cpp
--------------------------------------------------------------------------------

namespace vio

/-- Embedding of `vio::match_input_parameter` (interface.cpp lines 28-39).
The function compares `key` against the string literal used in the source
and returns `false` on mismatch; the fall-through "keyword not found" path
also returns `false`. -/
def match_input_parameter (key word value unit : String) (line : ℤ) : Bool :=
  if key ≠ "vio" then false
  else false

/-- Embedding of `vio::match_material_parameter` (interface.cpp lines 44-54).
The source builds an (unused) material key string and falls through to the
"keyword not found" path returning `false`. -/
def match_material_parameter (word value unit : String)
    (line super_index sub_index : ℤ) : Bool :=
  false

end vio

--------------------------------------------------------------------------------
-- stats module : standard_deviation_statistic_t (part_000 lines 480-595)
--------------------------------------------------------------------------------

namespace stats

/-- State of `stats::standard_deviation_statistic_t`: the element count,
the running mean array, the running sum of squared residuals, the sample
counter and the initialisation flag. -/
structure standard_deviation_statistic_t where
  num_elements : ℕ
  mean : List ℚ
  residual_sq : List ℚ
  mean_counter : ℚ
  initialized : Bool
deriving DecidableEq

/-- Embedding of `standard_deviation_statistic_t::initialize` (part_000
lines 490-517) on its happy path: `num_elements` is the magnetization
vector length divided by 4, the `mean` and `residual_sq` arrays are
resized to `4*num_elements` zeros, the counter is reset and the flag set. -/
def initialise (magnetization : List ℚ) : standard_deviation_statistic_t :=
  let ne := magnetization.length / 4
  { num_elements := ne
    mean := List.replicate (4 * ne) 0
    residual_sq := List.replicate (4 * ne) 0
    mean_counter := 0
    initialized := true }

/-- Embedding of `standard_deviation_statistic_t::update` (part_000 lines
524-543).  The counter is incremented first; then for every index
`idx < 4*num_elements` (the double loop over `id` and `dir` visits each
index exactly once, and distinct indices are independent) Welford's step
is applied:  `res1 = m - mean[idx]`, `mean[idx] += res1/mean_counter`,
`res2 = m - mean[idx]`, `residual_sq[idx] += res1*res2`. -/
def update (s : standard_deviation_statistic_t) (magnetization : List ℚ) :
    standard_deviation_statistic_t :=
  let c := s.mean_counter + 1
  { s with
    mean_counter := c
    mean := (List.range (4 * s.num_elements)).map (fun idx =>
      s.mean.getD idx 0 + (magnetization.getD idx 0 - s.mean.getD idx 0) / c)
    residual_sq := (List.range (4 * s.num_elements)).map (fun idx =>
      s.residual_sq.getD idx 0 +
        (magnetization.getD idx 0 - s.mean.getD idx 0) *
        (magnetization.getD idx 0 -
          (s.mean.getD idx 0 +
            (magnetization.getD idx 0 - s.mean.getD idx 0) / c))) }

/-- Scalar Welford step on a (mean, residual-square-sum, counter) triple,
exactly the per-index computation performed by `update`. -/
def welfordStep (st : ℚ × ℚ × ℚ) (x : ℚ) : ℚ × ℚ × ℚ :=
  let c := st.2.2 + 1
  let r1 := x - st.1
  let m := st.1 + r1 / c
  let r2 := x - m
  (m, st.2.1 + r1 * r2, c)

/-- Scalar Welford recursion over a list of samples, starting from the
zero state produced by `initialize`. -/
def welfordFold (xs : List ℚ) : ℚ × ℚ × ℚ :=
  xs.foldl welfordStep (0, 0, 0)

/-- Sum of squares of a list of rationals. -/
def sumSq (xs : List ℚ) : ℚ :=
  (xs.map (fun x => x ^ 2)).sum

end stats

--------------------------------------------------------------------------------
-- dipole module : src/unnamed/part_000 lines 36-247
--------------------------------------------------------------------------------

namespace dipole

/-- A symmetric 3x3 tensor held as its six independent components, used
both for the per-pair dipolar tensors and for the six demagnetising
accumulators `Nxx..Nzz` of `dipole::initialize`. -/
structure N6 where
  xx : ℚ
  xy : ℚ
  xz : ℚ
  yy : ℚ
  yz : ℚ
  zz : ℚ
deriving DecidableEq

instance : Zero N6 := ⟨⟨0, 0, 0, 0, 0, 0⟩⟩

instance : Add N6 :=
  ⟨fun a b => ⟨a.xx + b.xx, a.xy + b.xy, a.xz + b.xz,
               a.yy + b.yy, a.yz + b.yz, a.zz + b.zz⟩⟩

@[ext] lemma N6.ext {a b : N6} (hxx : a.xx = b.xx) (hxy : a.xy = b.xy)
    (hxz : a.xz = b.xz) (hyy : a.yy = b.yy) (hyz : a.yz = b.yz)
    (hzz : a.zz = b.zz) : a = b := by
  cases a; cases b; simp_all

@[simp] lemma N6.add_xx (a b : N6) : (a + b).xx = a.xx + b.xx := rfl

@[simp] lemma N6.add_xy (a b : N6) : (a + b).xy = a.xy + b.xy := rfl

@[simp] lemma N6.add_xz (a b : N6) : (a + b).xz = a.xz + b.xz := rfl

@[simp] lemma N6.add_yy (a b : N6) : (a + b).yy = a.yy + b.yy := rfl

@[simp] lemma N6.add_yz (a b : N6) : (a + b).yz = a.yz + b.yz := rfl

@[simp] lemma N6.add_zz (a b : N6) : (a + b).zz = a.zz + b.zz := rfl

@[simp] lemma N6.zero_xx : (0 : N6).xx = 0 := rfl

@[simp] lemma N6.zero_xy : (0 : N6).xy = 0 := rfl

@[simp] lemma N6.zero_xz : (0 : N6).xz = 0 := rfl

@[simp] lemma N6.zero_yy : (0 : N6).yy = 0 := rfl

@[simp] lemma N6.zero_yz : (0 : N6).yz = 0 := rfl

@[simp] lemma N6.zero_zz : (0 : N6).zz = 0 := rfl

instance : AddCommMonoid N6 where
  add_assoc a b c := by ext <;> simp [add_assoc]
  zero_add a := by ext <;> simp
  add_zero a := by ext <;> simp
  add_comm a b := by ext <;> simp [add_comm]
  nsmul := nsmulRec

/-- The twelve tensor arrays `dipole::internal::rij_intra_??` and
`dipole::internal::rij_inter_??`, indexed `[local cell][global cell]`.
Their contents are produced by `dipole::internal::initialize_tensor_solver`,
which is outside the provided sources, so they enter the model as data. -/
structure TensorData where
  intra_xx : List (List ℚ)
  intra_xy : List (List ℚ)
  intra_xz : List (List ℚ)
  intra_yy : List (List ℚ)
  intra_yz : List (List ℚ)
  intra_zz : List (List ℚ)
  inter_xx : List (List ℚ)
  inter_xy : List (List ℚ)
  inter_xz : List (List ℚ)
  inter_yy : List (List ℚ)
  inter_yz : List (List ℚ)
  inter_zz : List (List ℚ)
deriving DecidableEq

/-- The cell geometry read by the demagnetising diagnostic:
`dipole::internal::cells_num_local_cells`, `cells::cell_id_array`,
`dipole::internal::cells_num_atoms_in_cell` and
`dipole::internal::cells_volume_array`. -/
structure DemagGeometry where
  num_local_cells : ℕ
  cell_id_array : List ℕ
  num_atoms_in_cell : List ℕ
  volume_array : List ℚ
deriving DecidableEq

/-- The summed intra+inter tensor of a (local cell, cell) pair, the
quantity `rij_intra_??[lc][j] + rij_inter_??[lc][j]` read per component
in part_000 lines 204-209. -/
def tensorTotal (td : TensorData) (lc j : ℕ) : N6 where
  xx := (td.intra_xx.getD lc []).getD j 0 + (td.inter_xx.getD lc []).getD j 0
  xy := (td.intra_xy.getD lc []).getD j 0 + (td.inter_xy.getD lc []).getD j 0
  xz := (td.intra_xz.getD lc []).getD j 0 + (td.inter_xz.getD lc []).getD j 0
  yy := (td.intra_yy.getD lc []).getD j 0 + (td.inter_yy.getD lc []).getD j 0
  yz := (td.intra_yz.getD lc []).getD j 0 + (td.inter_yz.getD lc []).getD j 0
  zz := (td.intra_zz.getD lc []).getD j 0 + (td.inter_zz.getD lc []).getD j 0

/-- Componentwise scaling of an `N6`. -/
def N6.scale (c : ℚ) (N : N6) : N6 :=
  ⟨c * N.xx, c * N.xy, c * N.xz, c * N.yy, c * N.yz, c * N.zz⟩

/-- One accumulation step of the demagnetising loop (part_000 lines
200-209): `Vatomic = cells_volume_array[j] / cells_num_atoms_in_cell[j]`,
`factor = Vatomic * cells_num_atoms_in_cell[j] * cells_num_atoms_in_cell[i]`
with `i = cell_id_array[lc]`, and the contribution is `factor`
times the summed intra+inter tensor. -/
def demagTerm (g : DemagGeometry) (td : TensorData) (lc j : ℕ) : N6 :=
  let i := g.cell_id_array.getD lc 0
  let Vatomic := g.volume_array.getD j 0 / (g.num_atoms_in_cell.getD j 0 : ℚ)
  let factor := Vatomic * (g.num_atoms_in_cell.getD j 0 : ℚ) *
      (g.num_atoms_in_cell.getD i 0 : ℚ)
  N6.scale factor (tensorTotal td lc j)

/-- The demagnetising accumulation double loop of part_000 lines 193-213:
for every local cell index `lc` whose cell `i = cell_id_array[lc]` has a
positive atom count, and every `j` below `rij_inter_xx[lc].size()` with a
positive atom count, add `demagTerm` into the six totals. -/
def demagLoop (g : DemagGeometry) (td : TensorData) : N6 :=
  (List.range g.num_local_cells).foldl (fun N lc =>
    if 0 < g.num_atoms_in_cell.getD (g.cell_id_array.getD lc 0) 0 then
      (List.range ((td.inter_xx.getD lc []).length)).foldl (fun N2 j =>
        if 0 < g.num_atoms_in_cell.getD j 0 then N2 + demagTerm g td lc j
        else N2) N
    else N) 0

/-- The divisors actually used by the demagnetising loop: the loop divides
by `cells_num_atoms_in_cell[j]` (forming `Vatomic`) exactly on the
iterations where both population guards pass; this collects those
divisors in execution order. -/
def demagDivisors (g : DemagGeometry) (td : TensorData) : List ℕ :=
  (List.range g.num_local_cells).foldl (fun acc lc =>
    if 0 < g.num_atoms_in_cell.getD (g.cell_id_array.getD lc 0) 0 then
      (List.range ((td.inter_xx.getD lc []).length)).foldl (fun acc2 j =>
        if 0 < g.num_atoms_in_cell.getD j 0 then
          acc2 ++ [g.num_atoms_in_cell.getD j 0]
        else acc2) acc
    else acc) []

/-- The demagnetising accumulation written the way the specification
states it: for every local cell `i` with a non-zero atom population and
every cell `j` with a non-zero atom population, add
`factor * (intra[i][j] + inter[i][j])` per component, where
`factor = V_atomic(j) * n_atoms(j) * n_atoms(i)` and `V_atomic(j)` is
cell j's volume divided by its atom count; other pairs contribute
nothing. -/
def demagSpec (g : DemagGeometry) (td : TensorData) : N6 where
  xx := ∑ lc in Finset.range g.num_local_cells,
    ∑ j in Finset.range ((td.inter_xx.getD lc []).length),
      if g.num_atoms_in_cell.getD (g.cell_id_array.getD lc 0) 0 ≠ 0 ∧
         g.num_atoms_in_cell.getD j 0 ≠ 0 then
        (g.volume_array.getD j 0 / (g.num_atoms_in_cell.getD j 0 : ℚ)) *
          (g.num_atoms_in_cell.getD j 0 : ℚ) *
          (g.num_atoms_in_cell.getD (g.cell_id_array.getD lc 0) 0 : ℚ) *
          ((td.intra_xx.getD lc []).getD j 0 + (td.inter_xx.getD lc []).getD j 0)
      else 0
  xy := ∑ lc in Finset.range g.num_local_cells,
    ∑ j in Finset.range ((td.inter_xx.getD lc []).length),
      if g.num_atoms_in_cell.getD (g.cell_id_array.getD lc 0) 0 ≠ 0 ∧
         g.num_atoms_in_cell.getD j 0 ≠ 0 then
        (g.volume_array.getD j 0 / (g.num_atoms_in_cell.getD j 0 : ℚ)) *
          (g.num_atoms_in_cell.getD j 0 : ℚ) *
          (g.num_atoms_in_cell.getD (g.cell_id_array.getD lc 0) 0 : ℚ) *
          ((td.intra_xy.getD lc []).getD j 0 + (td.inter_xy.getD lc []).getD j 0)
      else 0
  xz := ∑ lc in Finset.range g.num_local_cells,
    ∑ j in Finset.range ((td.inter_xx.getD lc []).length),
      if g.num_atoms_in_cell.getD (g.cell_id_array.getD lc 0) 0 ≠ 0 ∧
         g.num_atoms_in_cell.getD j 0 ≠ 0 then
        (g.volume_array.getD j 0 / (g.num_atoms_in_cell.getD j 0 : ℚ)) *
          (g.num_atoms_in_cell.getD j 0 : ℚ) *
          (g.num_atoms_in_cell.getD (g.cell_id_array.getD lc 0) 0 : ℚ) *
          ((td.intra_xz.getD lc []).getD j 0 + (td.inter_xz.getD lc []).getD j 0)
      else 0
  yy := ∑ lc in Finset.range g.num_local_cells,
    ∑ j in Finset.range ((td.inter_xx.getD lc []).length),
      if g.num_atoms_in_cell.getD (g.cell_id_array.getD lc 0) 0 ≠ 0 ∧
         g.num_atoms_in_cell.getD j 0 ≠ 0 then
        (g.volume_array.getD j 0 / (g.num_atoms_in_cell.getD j 0 : ℚ)) *
          (g.num_atoms_in_cell.getD j 0 : ℚ) *
          (g.num_atoms_in_cell.getD (g.cell_id_array.getD lc 0) 0 : ℚ) *
          ((td.intra_yy.getD lc []).getD j 0 + (td.inter_yy.getD lc []).getD j 0)
      else 0
  yz := ∑ lc in Finset.range g.num_local_cells,
    ∑ j in Finset.range ((td.inter_xx.getD lc []).length),
      if g.num_atoms_in_cell.getD (g.cell_id_array.getD lc 0) 0 ≠ 0 ∧
         g.num_atoms_in_cell.getD j 0 ≠ 0 then
        (g.volume_array.getD j 0 / (g.num_atoms_in_cell.getD j 0 : ℚ)) *
          (g.num_atoms_in_cell.getD j 0 : ℚ) *
          (g.num_atoms_in_cell.getD (g.cell_id_array.getD lc 0) 0 : ℚ) *
          ((td.intra_yz.getD lc []).getD j 0 + (td.inter_yz.getD lc []).getD j 0)
      else 0
  zz := ∑ lc in Finset.range g.num_local_cells,
    ∑ j in Finset.range ((td.inter_xx.getD lc []).length),
      if g.num_atoms_in_cell.getD (g.cell_id_array.getD lc 0) 0 ≠ 0 ∧
         g.num_atoms_in_cell.getD j 0 ≠ 0 then
        (g.volume_array.getD j 0 / (g.num_atoms_in_cell.getD j 0 : ℚ)) *
          (g.num_atoms_in_cell.getD j 0 : ℚ) *
          (g.num_atoms_in_cell.getD (g.cell_id_array.getD lc 0) 0 : ℚ) *
          ((td.intra_zz.getD lc []).getD j 0 + (td.inter_zz.getD lc []).getD j 0)
      else 0

/-- The count of magnetic atoms computed in part_000 lines 177-182: the
sum over all local cells of `cells_num_atoms_in_cell[cell_id_array[lc]]`
(no population guard on this sum). -/
def numAtomsMagnetic (g : DemagGeometry) : ℕ :=
  (List.range g.num_local_cells).foldl (fun acc lc =>
    acc + g.num_atoms_in_cell.getD (g.cell_id_array.getD lc 0) 0) 0

end dipole

namespace dipole

/-- The memory-sizing estimate printed by `dipole::initialize` (part_000
lines 109-110), in megabytes:
`double(cells_num_cells) * double(cells_num_local_cells*6) * 8.0 / 1.0e6`.
All quantities involved are small integers, so the double computation is
exact and is embedded in `ℚ`. -/
def required_RAM_MB (num_cells num_local_cells : ℕ) : ℚ :=
  (num_cells : ℚ) * ((num_local_cells * 6 : ℕ) : ℚ) * 8 / 1000000

/-- The total tensor storage as the specification documents it:
`local_cells × global_cells × 12` scalars of 8 bytes each (two tensors of
six components), expressed in the same megabyte unit as
`required_RAM_MB`. -/
def documented_storage_MB (num_local_cells num_cells : ℕ) : ℚ :=
  ((num_local_cells * num_cells * 12 * 8 : ℕ) : ℚ) / 1000000

/-- The demagnetising normalisation of part_000 lines 227-232 applied to
the six reduced totals and the reduced magnetic-atom count: each total is
divided by the count, the self term `4π/3` is subtracted from the three
diagonal components, and everything is divided by `-4π`.  Stated over `ℝ`
because of the constant π. -/
noncomputable def demag_normalize (Nxx Nxy Nxz Nyy Nyz Nzz : ℝ)
    (num_atoms_magnetic : ℝ) : ℝ × ℝ × ℝ × ℝ × ℝ × ℝ :=
  (((Nxx / num_atoms_magnetic) - 4 * Real.pi / 3) / (-(4 * Real.pi)),
   ((Nxy / num_atoms_magnetic)) / (-(4 * Real.pi)),
   ((Nxz / num_atoms_magnetic)) / (-(4 * Real.pi)),
   ((Nyy / num_atoms_magnetic) - 4 * Real.pi / 3) / (-(4 * Real.pi)),
   ((Nyz / num_atoms_magnetic)) / (-(4 * Real.pi)),
   ((Nzz / num_atoms_magnetic) - 4 * Real.pi / 3) / (-(4 * Real.pi)))

/-- The externally visible steps `dipole::initialize` performs on its
first successful call, in program order. -/
inductive DipoleEvent
  | allocate
  | buildTensor
  | barrier
  | setInitialised
  | fieldEvaluation
  | demagDiagnostic
  | warnAlreadyInitialised
deriving DecidableEq

/-- The log messages `dipole::initialize` writes via `zlog`, in program
order; messages carry data only where a claim inspects it.  The
demagnetising report carries the raw six totals and the magnetic-atom
count; the printed numbers are `demag_normalize` applied to them. -/
inductive LogMsg
  | warnAlreadyInitialised
  | initialising
  | memEstimate (mb : ℚ)
  | numLocalCells (n : ℕ)
  | numTotalCells (n : ℕ)
  | precalculating
  | precalcComplete
  | dipoleUpdateTime
  | outputtingMatrix
  | demagTensorReport (totals : N6) (count : ℕ)
deriving DecidableEq

/-- The mutable module state of `dipole`: the feature flag
`dipole::activated`, the flag `dipole::internal::initialised`, the global
simulation time `sim::time` read by the diagnostic gate, the tensor
storage (`none` = unallocated), the demagnetising values last reported
(raw totals and atom count; `none` = never computed), and the log. -/
structure DipoleState where
  activated : Bool
  initialised : Bool
  simTime : ℕ
  tensors : Option TensorData
  demagReport : Option (N6 × ℕ)
  log : List LogMsg
deriving DecidableEq

/-- The initialisation-time inputs read by the parts of
`dipole::initialize` modelled here: cell counts, the local-cell id map,
per-cell atom counts and per-cell volumes. -/
structure InitArgs where
  num_cells : ℕ
  num_local_cells : ℕ
  cell_id_array : List ℕ
  num_atoms_in_cell : List ℕ
  volume_array : List ℚ
deriving DecidableEq

/-- The cell geometry a set of `InitArgs` provides to the demagnetising
loop. -/
def InitArgs.geometry (a : InitArgs) : DemagGeometry :=
  ⟨a.num_local_cells, a.cell_id_array, a.num_atoms_in_cell, a.volume_array⟩

/-- Embedding of `dipole::initialize` (part_000 lines 41-246) as a state
transition that also returns the trace of steps performed.
If `dipole::activated` is false it returns at once (line 67).  If
`dipole::internal::initialised` is already set it logs a warning and
returns (lines 70-73).  Otherwise it allocates the tensor storage,
builds it, synchronises, sets the initialised flag, evaluates the field
once, synchronises again, and, only when `sim::time == 0`, runs the
demagnetising diagnostic (lines 175-240) and reports it.
The tensor contents are the output of
`dipole::internal::initialize_tensor_solver`, which is not among the
provided sources, so they are passed in as the opaque value `built`. -/
def initialise (s : DipoleState) (a : InitArgs) (built : TensorData) :
    DipoleState × List DipoleEvent :=
  if s.activated = false then (s, [])
  else if s.initialised then
    ({ s with log := s.log ++ [LogMsg.warnAlreadyInitialised] },
     [DipoleEvent.warnAlreadyInitialised])
  else
    let g := a.geometry
    ({ s with
        tensors := some built
        initialised := true
        demagReport :=
          if s.simTime = 0 then some (demagLoop g built, numAtomsMagnetic g)
          else s.demagReport
        log := s.log ++
          [LogMsg.initialising,
           LogMsg.memEstimate (required_RAM_MB a.num_cells a.num_local_cells),
           LogMsg.numLocalCells a.num_local_cells,
           LogMsg.numTotalCells a.num_cells,
           LogMsg.precalculating, LogMsg.precalcComplete,
           LogMsg.dipoleUpdateTime, LogMsg.outputtingMatrix] ++
          (if s.simTime = 0 then
            [LogMsg.demagTensorReport (demagLoop g built) (numAtomsMagnetic g)]
          else []) },
     [DipoleEvent.allocate, DipoleEvent.buildTensor, DipoleEvent.barrier,
      DipoleEvent.setInitialised, DipoleEvent.fieldEvaluation,
      DipoleEvent.barrier] ++
     (if s.simTime = 0 then [DipoleEvent.demagDiagnostic] else []))

/-- The dipole field at one local cell given per-cell moments: the sum
over cells `j` of the 3x3 product of the total (intra+inter) tensor with
moment `j`. -/
def fieldAt (td : TensorData) (moments : List (ℚ × ℚ × ℚ)) (lc : ℕ) :
    ℚ × ℚ × ℚ :=
  (List.range ((td.inter_xx.getD lc []).length)).foldl (fun f j =>
    let t := tensorTotal td lc j
    let m := moments.getD j (0, 0, 0)
    (f.1 + t.xx * m.1 + t.xy * m.2.1 + t.xz * m.2.2,
     f.2.1 + t.xy * m.1 + t.yy * m.2.1 + t.yz * m.2.2,
     f.2.2 + t.xz * m.1 + t.yz * m.2.1 + t.zz * m.2.2)) (0, 0, 0)

/-- Modelled from the spec: `dipole::calculate_field` is not among the
provided sources.  Per spec section 4.3, the field evaluator applies the
precomputed tensors to the per-cell moments
(`field_i = Σ_j (intra[i][j] + inter[i][j]) · moment_j`), treats the
tensor storage as read-only, allocates nothing, and performs no
demagnetising computation; the module state is unchanged. -/
def calculate_field (s : DipoleState) (moments : List (ℚ × ℚ × ℚ)) :
    DipoleState × List (ℚ × ℚ × ℚ) :=
  match s.tensors with
  | none => (s, [])
  | some td =>
      (s, (List.range td.inter_xx.length).map (fieldAt td moments))

end dipole

namespace dipole

/-- Sample initialisation arguments: one local cell (cell id 0) holding
two atoms in volume 3, one global cell. -/
def sampleArgs : InitArgs := ⟨1, 1, [0], [2], [3]⟩

/-- Sample tensor data for the one-by-one cell system of `sampleArgs`. -/
def sampleTensors : TensorData :=
  ⟨[[1]], [[0]], [[0]], [[1]], [[0]], [[1]],
   [[2]], [[0]], [[0]], [[2]], [[0]], [[2]]⟩

/-- Sample fresh module state: feature enabled, not yet initialised,
simulation time zero, no storage, empty log. -/
def sampleFresh : DipoleState := ⟨true, false, 0, none, none, []⟩

/-- Sample already-initialised module state. -/
def sampleDone : DipoleState := ⟨true, true, 0, some sampleTensors, none, []⟩

/-- Sample state with the dipole feature flag disabled. -/
def sampleOff : DipoleState := ⟨false, false, 0, none, none, []⟩

end dipole

--------------------------------------------------------------------------------
-- Theorems
--------------------------------------------------------------------------------

/-- A left fold over `List.range m` that adds `t j` whenever the guard
`p j` holds equals the starting value plus the guarded sum. -/
lemma foldl_ite_add {M : Type} [AddCommMonoid M] (p : ℕ → Prop)
    [DecidablePred p] (t : ℕ → M) (a : M) (m : ℕ) :
    (List.range m).foldl (fun acc j => if p j then acc + t j else acc) a =
      a + ∑ j in Finset.range m, if p j then t j else 0 := by
  induction m with
  | zero => simp
  | succ k ih =>
      rw [List.range_succ, List.foldl_append, ih, Finset.sum_range_succ]
      by_cases hp : p k <;> simp [hp, add_assoc]

/-- A left fold that maintains a predicate on every element of its list
accumulator maintains it to the end. -/
lemma foldl_mem_invariant {α β : Type} (P : α → Prop) (F : List α → β → List α)
    (hF : ∀ acc b, (∀ x ∈ acc, P x) → ∀ x ∈ F acc b, P x) :
    ∀ (l : List β) (acc : List α), (∀ x ∈ acc, P x) →
      ∀ x ∈ l.foldl F acc, P x := by
  intro l
  induction l with
  | nil => intro acc hacc; simpa using hacc
  | cons b l ih => intro acc hacc; exact ih _ (hF acc b hacc)

namespace dipole

@[simp] lemma N6.sum_xx {ι : Type} (s : Finset ι) (f : ι → N6) :
    (∑ i in s, f i).xx = ∑ i in s, (f i).xx := by
  classical
  induction s using Finset.cons_induction with
  | empty => rfl
  | cons a s ha ih => simp [Finset.sum_insert ha, ih]

@[simp] lemma N6.sum_xy {ι : Type} (s : Finset ι) (f : ι → N6) :
    (∑ i in s, f i).xy = ∑ i in s, (f i).xy := by
  classical
  induction s using Finset.cons_induction with
  | empty => rfl
  | cons a s ha ih => simp [Finset.sum_insert ha, ih]

@[simp] lemma N6.sum_xz {ι : Type} (s : Finset ι) (f : ι → N6) :
    (∑ i in s, f i).xz = ∑ i in s, (f i).xz := by
  classical
  induction s using Finset.cons_induction with
  | empty => rfl
  | cons a s ha ih => simp [Finset.sum_insert ha, ih]

@[simp] lemma N6.sum_yy {ι : Type} (s : Finset ι) (f : ι → N6) :
    (∑ i in s, f i).yy = ∑ i in s, (f i).yy := by
  classical
  induction s using Finset.cons_induction with
  | empty => rfl
  | cons a s ha ih => simp [Finset.sum_insert ha, ih]

@[simp] lemma N6.sum_yz {ι : Type} (s : Finset ι) (f : ι → N6) :
    (∑ i in s, f i).yz = ∑ i in s, (f i).yz := by
  classical
  induction s using Finset.cons_induction with
  | empty => rfl
  | cons a s ha ih => simp [Finset.sum_insert ha, ih]

@[simp] lemma N6.sum_zz {ι : Type} (s : Finset ι) (f : ι → N6) :
    (∑ i in s, f i).zz = ∑ i in s, (f i).zz := by
  classical
  induction s using Finset.cons_induction with
  | empty => rfl
  | cons a s ha ih => simp [Finset.sum_insert ha, ih]

/-- The demagnetising double loop as a guarded double sum. -/
lemma demagLoop_eq (g : DemagGeometry) (td : TensorData) :
    demagLoop g td =
      ∑ lc in Finset.range g.num_local_cells,
        if 0 < g.num_atoms_in_cell.getD (g.cell_id_array.getD lc 0) 0 then
          ∑ j in Finset.range ((td.inter_xx.getD lc []).length),
            if 0 < g.num_atoms_in_cell.getD j 0 then demagTerm g td lc j
            else 0
        else 0 := by
  have hfun : (fun (N : N6) lc =>
      if 0 < g.num_atoms_in_cell.getD (g.cell_id_array.getD lc 0) 0 then
        (List.range ((td.inter_xx.getD lc []).length)).foldl (fun N2 j =>
          if 0 < g.num_atoms_in_cell.getD j 0 then N2 + demagTerm g td lc j
          else N2) N
      else N) = (fun (N : N6) lc =>
      if 0 < g.num_atoms_in_cell.getD (g.cell_id_array.getD lc 0) 0 then
        N + ∑ j in Finset.range ((td.inter_xx.getD lc []).length),
          (if 0 < g.num_atoms_in_cell.getD j 0 then demagTerm g td lc j else 0)
      else N) := by
    funext N lc
    by_cases hq : 0 < g.num_atoms_in_cell.getD (g.cell_id_array.getD lc 0) 0
    · rw [if_pos hq, if_pos hq]
      exact foldl_ite_add _ _ N _
    · rw [if_neg hq, if_neg hq]
  rw [demagLoop, hfun]
  rw [foldl_ite_add
    (fun lc => 0 < g.num_atoms_in_cell.getD (g.cell_id_array.getD lc 0) 0)
    (fun lc => ∑ j in Finset.range ((td.inter_xx.getD lc []).length),
      (if 0 < g.num_atoms_in_cell.getD j 0 then demagTerm g td lc j else 0))
    0 g.num_local_cells]
  rw [zero_add]

end dipole

/-- Exchanging a nested guarded sum for a single conjunction guard. -/
lemma sum_ite_and (Q P : ℕ → Prop) [DecidablePred Q] [DecidablePred P]
    (n : ℕ) (len : ℕ → ℕ) (f : ℕ → ℕ → ℚ) :
    (∑ lc in Finset.range n, if Q lc then
        (∑ j in Finset.range (len lc), if P j then f lc j else 0)
      else 0) =
    ∑ lc in Finset.range n, ∑ j in Finset.range (len lc),
      if Q lc ∧ P j then f lc j else 0 := by
  refine Finset.sum_congr rfl fun lc _ => ?_
  by_cases hq : Q lc
  · simp [hq]
  · simp [hq]

/-- Claim C3: the demagnetising diagnostic accumulates, for every local
cell `i` with a non-zero atom population and every cell `j` with a
non-zero atom population, `factor * (intra[i][j] + inter[i][j])` into the
six totals `Nxx..Nzz`, with
`factor = V_atomic(j) * n_atoms(j) * n_atoms(i)` and `V_atomic(j)` the
volume of cell `j` divided by its atom count; pairs in which either
population is zero contribute nothing. -/
theorem claim_C3 (g : dipole.DemagGeometry) (td : dipole.TensorData) :
    dipole.demagLoop g td = dipole.demagSpec g td := by
  rw [dipole.demagLoop_eq]
  ext <;>
  · simp only [dipole.demagSpec, dipole.N6.sum_xx, dipole.N6.sum_xy,
      dipole.N6.sum_xz, dipole.N6.sum_yy, dipole.N6.sum_yz, dipole.N6.sum_zz,
      apply_ite dipole.N6.xx, apply_ite dipole.N6.xy, apply_ite dipole.N6.xz,
      apply_ite dipole.N6.yy, apply_ite dipole.N6.yz, apply_ite dipole.N6.zz,
      dipole.N6.zero_xx, dipole.N6.zero_xy, dipole.N6.zero_xz,
      dipole.N6.zero_yy, dipole.N6.zero_yz, dipole.N6.zero_zz,
      dipole.demagTerm, dipole.N6.scale, dipole.tensorTotal,
      Nat.pos_iff_ne_zero]
    exact sum_ite_and _ _ _ _ _

/-- Claim C7: in the demagnetising accumulation a cell with zero atoms is
skipped both as the local cell and as the partner cell — the accumulated
totals do not depend on the tensor entries of any pair in which either
population is zero (first conjunct, stated as: any two tensor data sets
with the same row lengths agreeing on the positive-population pairs give
the same totals) — and every divisor used to form the per-atom volume
`V_atomic(j)` is positive (second conjunct). -/
theorem claim_C7 (g : dipole.DemagGeometry) (td td2 : dipole.TensorData)
    (hrow : ∀ lc, (td2.inter_xx.getD lc []).length =
      (td.inter_xx.getD lc []).length)
    (hagree : ∀ lc j, lc < g.num_local_cells →
      j < (td.inter_xx.getD lc []).length →
      g.num_atoms_in_cell.getD (g.cell_id_array.getD lc 0) 0 ≠ 0 →
      g.num_atoms_in_cell.getD j 0 ≠ 0 →
      dipole.tensorTotal td2 lc j = dipole.tensorTotal td lc j) :
    dipole.demagLoop g td2 = dipole.demagLoop g td ∧
    ∀ d ∈ dipole.demagDivisors g td, 0 < d := by
  constructor
  · rw [dipole.demagLoop_eq, dipole.demagLoop_eq]
    refine Finset.sum_congr rfl fun lc hlc => ?_
    rw [Finset.mem_range] at hlc
    by_cases hq : 0 < g.num_atoms_in_cell.getD (g.cell_id_array.getD lc 0) 0
    · rw [if_pos hq, if_pos hq, hrow lc]
      refine Finset.sum_congr rfl fun j hj => ?_
      rw [Finset.mem_range] at hj
      by_cases hp : 0 < g.num_atoms_in_cell.getD j 0
      · rw [if_pos hp, if_pos hp]
        unfold dipole.demagTerm
        rw [hagree lc j hlc hj (Nat.pos_iff_ne_zero.mp hq)
          (Nat.pos_iff_ne_zero.mp hp)]
      · rw [if_neg hp, if_neg hp]
    · rw [if_neg hq, if_neg hq]
  · unfold dipole.demagDivisors
    refine foldl_mem_invariant (fun d => 0 < d) _ ?_ _ _ (by simp)
    intro acc lc hacc
    by_cases hq : 0 < g.num_atoms_in_cell.getD (g.cell_id_array.getD lc 0) 0
    · rw [if_pos hq]
      refine foldl_mem_invariant (fun d => 0 < d) _ ?_ _ _ hacc
      intro acc2 j hacc2 x hx
      by_cases hp : 0 < g.num_atoms_in_cell.getD j 0
      · rw [if_pos hp] at hx
        rcases List.mem_append.mp hx with h | h
        · exact hacc2 x h
        · rw [List.mem_singleton.mp h]; exact hp
      · rw [if_neg hp] at hx
        exact hacc2 x hx
    · rw [if_neg hq]
      exact hacc

/-- Witness for claim C7: the hypotheses hold for `sampleTensors`
compared with itself over the sample geometry. -/
theorem claim_C7_witness :
    dipole.demagLoop dipole.sampleArgs.geometry dipole.sampleTensors =
      dipole.demagLoop dipole.sampleArgs.geometry dipole.sampleTensors ∧
    ∀ d ∈ dipole.demagDivisors dipole.sampleArgs.geometry
      dipole.sampleTensors, 0 < d :=
  claim_C7 dipole.sampleArgs.geometry dipole.sampleTensors
    dipole.sampleTensors (fun _ => rfl) (fun _ _ _ _ _ _ => rfl)

/-- Claim C1: calling `dipole::initialize` when the module is already
initialised leaves the tensor storage, the initialised flag and the
reported demagnetising data exactly as they were, and (when the module is
activated, so that the call reaches the guard) appends exactly the
warning message to the log. -/
theorem claim_C1 (s : dipole.DipoleState) (a : dipole.InitArgs)
    (built : dipole.TensorData) (hinit : s.initialised = true) :
    ((dipole.initialise s a built).1.tensors = s.tensors ∧
     (dipole.initialise s a built).1.initialised = s.initialised ∧
     (dipole.initialise s a built).1.demagReport = s.demagReport) ∧
    (s.activated = true →
      (dipole.initialise s a built).1.log =
        s.log ++ [dipole.LogMsg.warnAlreadyInitialised]) := by
  cases hact : s.activated
  · simp [dipole.initialise, hact, hinit]
  · simp [dipole.initialise, hact, hinit]

/-- Witness for claim C1 at the already-initialised sample state. -/
theorem claim_C1_witness :
    (dipole.initialise dipole.sampleDone dipole.sampleArgs
        dipole.sampleTensors).1.tensors = dipole.sampleDone.tensors ∧
    (dipole.initialise dipole.sampleDone dipole.sampleArgs
        dipole.sampleTensors).1.log =
      dipole.sampleDone.log ++ [dipole.LogMsg.warnAlreadyInitialised] :=
  ⟨(claim_C1 dipole.sampleDone dipole.sampleArgs dipole.sampleTensors
      rfl).1.1,
   (claim_C1 dipole.sampleDone dipole.sampleArgs dipole.sampleTensors
      rfl).2 rfl⟩

/-- Claim C2: on the first successful call (module activated, not yet
initialised) `dipole::initialize` performs, in order: tensor allocation,
the tensor build, a barrier, setting the initialised flag, one field
evaluation, a second barrier, and — only when the simulated time is
zero — the demagnetising diagnostic. -/
theorem claim_C2 (s : dipole.DipoleState) (a : dipole.InitArgs)
    (built : dipole.TensorData) (hact : s.activated = true)
    (hinit : s.initialised = false) :
    (dipole.initialise s a built).2 =
      [dipole.DipoleEvent.allocate, dipole.DipoleEvent.buildTensor,
       dipole.DipoleEvent.barrier, dipole.DipoleEvent.setInitialised,
       dipole.DipoleEvent.fieldEvaluation, dipole.DipoleEvent.barrier] ++
      (if s.simTime = 0 then [dipole.DipoleEvent.demagDiagnostic]
       else []) := by
  simp [dipole.initialise, hact, hinit]

/-- Witness for claim C2 at the fresh sample state (simulated time 0). -/
theorem claim_C2_witness :
    (dipole.initialise dipole.sampleFresh dipole.sampleArgs
        dipole.sampleTensors).2 =
      [dipole.DipoleEvent.allocate, dipole.DipoleEvent.buildTensor,
       dipole.DipoleEvent.barrier, dipole.DipoleEvent.setInitialised,
       dipole.DipoleEvent.fieldEvaluation, dipole.DipoleEvent.barrier] ++
      (if dipole.sampleFresh.simTime = 0 then
        [dipole.DipoleEvent.demagDiagnostic] else []) :=
  claim_C2 dipole.sampleFresh dipole.sampleArgs dipole.sampleTensors rfl rfl

/-- Claim C6: the demagnetising diagnostic runs exactly when the call is
the first successful initialisation and the simulated time is zero (so
in particular at most once, since afterwards the initialised flag is
set), and the field evaluator never changes the module state — in
particular it never computes or alters the reported demagnetising
values, whatever the simulated time or the moments. -/
theorem claim_C6 (s : dipole.DipoleState) (a : dipole.InitArgs)
    (built : dipole.TensorData) (moments : List (ℚ × ℚ × ℚ)) :
    (dipole.DipoleEvent.demagDiagnostic ∈ (dipole.initialise s a built).2 ↔
      (s.activated = true ∧ s.initialised = false ∧ s.simTime = 0)) ∧
    (dipole.calculate_field s moments).1 = s ∧
    (dipole.calculate_field s moments).1.demagReport = s.demagReport := by
  refine ⟨?_, ?_, ?_⟩
  · cases hact : s.activated
    · simp [dipole.initialise, hact]
    · cases hinit : s.initialised
      · by_cases ht : s.simTime = 0
        · simp [dipole.initialise, hact, hinit, ht]
        · simp [dipole.initialise, hact, hinit, ht]
      · simp [dipole.initialise, hact, hinit]
  · unfold dipole.calculate_field
    cases s.tensors <;> rfl
  · unfold dipole.calculate_field
    cases s.tensors <;> rfl

/-- Claim C8: with the feature flag `dipole::activated` cleared,
`dipole::initialize` is a complete no-op — the state (tensor storage,
log, initialised flag, demagnetising report) is returned unchanged and
no step is performed. -/
theorem claim_C8 (s : dipole.DipoleState) (a : dipole.InitArgs)
    (built : dipole.TensorData) (hact : s.activated = false) :
    (dipole.initialise s a built).1 = s ∧
    (dipole.initialise s a built).2 = [] := by
  constructor <;> simp [dipole.initialise, hact]

/-- Witness for claim C8 at the deactivated sample state. -/
theorem claim_C8_witness :
    (dipole.initialise dipole.sampleOff dipole.sampleArgs
        dipole.sampleTensors).1 = dipole.sampleOff ∧
    (dipole.initialise dipole.sampleOff dipole.sampleArgs
        dipole.sampleTensors).2 = [] :=
  claim_C8 dipole.sampleOff dipole.sampleArgs dipole.sampleTensors rfl

/-- Subtracting the `4π/3` self term before dividing by `-4π` is the
same as adding `1/3` after the plain division. -/
lemma diag_self_term_shift (x : ℝ) :
    (x - 4 * Real.pi / 3) / (-(4 * Real.pi)) =
      x / (-(4 * Real.pi)) + 1 / 3 := by
  have hpi : Real.pi ≠ 0 := Real.pi_ne_zero
  field_simp
  ring

/-- Claim C4: each of the six demagnetising totals is divided by the
magnetic-atom count and by `-4π`, and the `4π/3` self term (subtracted
before the division by `-4π`) shifts exactly the three diagonal
components — each diagonal output equals the plain
`(total/count)/(-4π)` plus `1/3`, while each off-diagonal output equals
the plain `(total/count)/(-4π)` with no self-term contribution. -/
theorem claim_C4 (Nxx Nxy Nxz Nyy Nyz Nzz num : ℝ) :
    dipole.demag_normalize Nxx Nxy Nxz Nyy Nyz Nzz num =
      ((Nxx / num) / (-(4 * Real.pi)) + 1 / 3,
       (Nxy / num) / (-(4 * Real.pi)),
       (Nxz / num) / (-(4 * Real.pi)),
       (Nyy / num) / (-(4 * Real.pi)) + 1 / 3,
       (Nyz / num) / (-(4 * Real.pi)),
       (Nzz / num) / (-(4 * Real.pi)) + 1 / 3) := by
  unfold dipole.demag_normalize
  simp only [Prod.mk.injEq]
  exact ⟨diag_self_term_shift _, trivial, trivial, diag_self_term_shift _,
    trivial, diag_self_term_shift _⟩

/-- Counterexample to claim C5: at one local cell and one global cell
the logged estimate is 6 scalars of 8 bytes (48 bytes), not the
documented 12-scalar total (96 bytes). -/
theorem claim_C5_counterexample :
    dipole.required_RAM_MB 1 1 ≠ dipole.documented_storage_MB 1 1 := by
  unfold dipole.required_RAM_MB dipole.documented_storage_MB
  norm_num

/-- Claim C5 (amended): for every pair of positive cell counts the
memory-sizing estimate logged before the tensor build equals
`num_local_cells * num_cells * 6` scalars of 8 bytes each — exactly half
of the documented `num_local_cells * num_cells * 12`-scalar total
storage. -/
theorem claim_C5_amended (num_cells num_local_cells : ℕ)
    (hc : 0 < num_cells) (hl : 0 < num_local_cells) :
    dipole.required_RAM_MB num_cells num_local_cells =
      ((num_local_cells * num_cells * 6 * 8 : ℕ) : ℚ) / 1000000 ∧
    2 * dipole.required_RAM_MB num_cells num_local_cells =
      dipole.documented_storage_MB num_local_cells num_cells := by
  unfold dipole.required_RAM_MB dipole.documented_storage_MB
  constructor
  · push_cast
    ring
  · push_cast
    ring

/-- Witness for the amended claim C5 at three cells, two of them local. -/
theorem claim_C5_amended_witness :
    dipole.required_RAM_MB 3 2 = ((2 * 3 * 6 * 8 : ℕ) : ℚ) / 1000000 ∧
    2 * dipole.required_RAM_MB 3 2 = dipole.documented_storage_MB 2 3 :=
  claim_C5_amended 3 2 (by decide) (by decide)

/-- Claim C10: `vio::match_input_parameter` returns `false` on every
input — also when the key equals the module keyword "vio" — and
`vio::match_material_parameter` returns `false` on every input: the vio
module recognises no input or material parameter. -/
theorem claim_C10 :
    (∀ key word value unit line,
      vio.match_input_parameter key word value unit line = false) ∧
    (∀ word value unit line super_index sub_index,
      vio.match_material_parameter word value unit line super_index
        sub_index = false) := by
  constructor
  · intro key word value unit line
    unfold vio.match_input_parameter
    split <;> rfl
  · intro word value unit line super_index sub_index
    rfl

namespace stats

/-- Appending one sample to the scalar Welford recursion performs one
`welfordStep`. -/
lemma welfordFold_snoc (xs : List ℚ) (x : ℚ) :
    welfordFold (xs ++ [x]) = welfordStep (welfordFold xs) x := by
  simp [welfordFold, List.foldl_append]

/-- Closed form of the scalar Welford recursion: the running mean is the
sample sum over the sample count, and the residual accumulator is the sum
of squares minus the squared sum over the count (all divisions in `ℚ`,
where division by zero yields zero, which matches the empty case). -/
lemma welfordFold_closed (xs : List ℚ) :
    welfordFold xs =
      (xs.sum / xs.length, sumSq xs - xs.sum ^ 2 / xs.length,
       (xs.length : ℚ)) := by
  induction xs using List.reverseRecOn with
  | nil => simp [welfordFold, sumSq]
  | append_singleton l a ih =>
      rw [welfordFold_snoc, ih]
      rcases eq_or_ne l.length 0 with h0 | hn
      · have hl : l = [] := List.length_eq_zero.mp h0
        subst hl
        simp [welfordStep, sumSq]
      · have hq : (l.length : ℚ) ≠ 0 := Nat.cast_ne_zero.mpr hn
        have hq1 : (l.length : ℚ) + 1 ≠ 0 := by positivity
        simp only [welfordStep, sumSq, List.sum_append, List.map_append,
          List.length_append, List.sum_cons, List.sum_nil, List.map_cons,
          List.map_nil, List.length_cons, List.length_nil, Prod.mk.injEq]
        push_cast
        refine ⟨?_, ?_, by ring⟩
        · field_simp
          ring
        · field_simp
          ring

/-- Sum of squared deviations from an arbitrary point, expanded. -/
lemma sum_sq_dev (xs : List ℚ) (m : ℚ) :
    (xs.map (fun x => (x - m) ^ 2)).sum =
      sumSq xs - 2 * m * xs.sum + xs.length * m ^ 2 := by
  induction xs with
  | nil => simp [sumSq]
  | cons a l ih =>
      simp only [List.map_cons, List.sum_cons, List.length_cons, ih, sumSq]
      push_cast
      ring

/-- The Welford residual accumulator in closed form equals the sum of
squared deviations from the final mean. -/
lemma residual_closed (p : List ℚ) :
    sumSq p - p.sum ^ 2 / p.length =
      (p.map (fun x => (x - p.sum / p.length) ^ 2)).sum := by
  rcases eq_or_ne p.length 0 with h0 | hn
  · have hp : p = [] := List.length_eq_zero.mp h0
    subst hp
    simp [sumSq]
  · have hq : (p.length : ℚ) ≠ 0 := Nat.cast_ne_zero.mpr hn
    rw [sum_sq_dev]
    field_simp
    ring

end stats

namespace stats

/-- Reading a mapped range list below its length evaluates the map. -/
lemma getD_range_map {β : Type} (f : ℕ → β) (d : β) {n i : ℕ} (h : i < n) :
    ((List.range n).map f).getD i d = f i := by
  rw [List.getD_eq_getElem?_getD, List.getElem?_map, List.getElem?_range h]
  rfl

/-- Projecting `update` at one in-range index is exactly one scalar
Welford step on that index's (mean, residual, counter) triple. -/
lemma update_proj (s : standard_deviation_statistic_t) (mag : List ℚ)
    {idx : ℕ} (h : idx < 4 * s.num_elements) :
    ((update s mag).mean.getD idx 0,
     (update s mag).residual_sq.getD idx 0,
     (update s mag).mean_counter) =
      welfordStep (s.mean.getD idx 0, s.residual_sq.getD idx 0,
        s.mean_counter) (mag.getD idx 0) := by
  simp [update, welfordStep, getD_range_map, h]

/-- Invariant of the statistic after any sequence of updates: the element
count is unchanged, the counter equals the number of updates, and at
every in-range index the state projects to the scalar Welford recursion
over that index's samples. -/
lemma sdev_fold_proj (mag : List ℚ) (vs : List (List ℚ)) :
    (vs.foldl update (initialise mag)).num_elements = mag.length / 4 ∧
    (vs.foldl update (initialise mag)).mean_counter = (vs.length : ℚ) ∧
    ∀ idx, idx < 4 * (mag.length / 4) →
      ((vs.foldl update (initialise mag)).mean.getD idx 0,
       (vs.foldl update (initialise mag)).residual_sq.getD idx 0,
       (vs.foldl update (initialise mag)).mean_counter) =
        welfordFold (vs.map (fun v => v.getD idx 0)) := by
  induction vs using List.reverseRecOn with
  | nil =>
      refine ⟨rfl, rfl, fun idx h => ?_⟩
      simp only [List.foldl_nil, List.map_nil, welfordFold, initialise]
      rw [List.getD_eq_getElem?_getD, List.getElem?_replicate_of_lt h]
      rfl
  | append_singleton vs v ih =>
      obtain ⟨hne, hcnt, hproj⟩ := ih
      rw [List.foldl_append]
      refine ⟨hne, ?_, fun idx h => ?_⟩
      · show (vs.foldl update (initialise mag)).mean_counter + 1 = _
        rw [hcnt, List.length_append, List.length_singleton]
        push_cast
        ring
      · have h2 : idx < 4 * (vs.foldl update (initialise mag)).num_elements := by
          rw [hne]; exact h
        rw [List.foldl_cons, List.foldl_nil, update_proj _ _ h2,
          hproj idx h, List.map_append, List.map_cons, List.map_nil,
          welfordFold_snoc]

end stats

/-- Claim C9: in exact arithmetic the standard-deviation statistic
maintains the Welford invariant — after `initialize` and `n` updates
with vectors `v_1..v_n`, each of length at least `4*num_elements`, the
counter equals `n`, and at every index `idx < 4*num_elements` the mean
equals the arithmetic mean of the samples `v_k[idx]` and the residual
accumulator equals the sum of squared deviations of those samples from
that final mean. -/
theorem claim_C9 (mag : List ℚ) (vs : List (List ℚ))
    (hlen : ∀ v ∈ vs, 4 * (mag.length / 4) ≤ v.length) :
    (vs.foldl stats.update (stats.initialise mag)).mean_counter =
      (vs.length : ℚ) ∧
    ∀ idx, idx < 4 * (mag.length / 4) →
      (vs.foldl stats.update (stats.initialise mag)).mean.getD idx 0 =
        (vs.map (fun v => v.getD idx 0)).sum / (vs.length : ℚ) ∧
      (vs.foldl stats.update (stats.initialise mag)).residual_sq.getD idx 0 =
        (vs.map (fun v => (v.getD idx 0 -
          (vs.foldl stats.update (stats.initialise mag)).mean.getD idx 0)
            ^ 2)).sum := by
  obtain ⟨hne, hcnt, hproj⟩ := stats.sdev_fold_proj mag vs
  refine ⟨hcnt, fun idx h => ?_⟩
  have h3 := hproj idx h
  rw [stats.welfordFold_closed] at h3
  simp only [Prod.mk.injEq] at h3
  obtain ⟨hmean, hres, _⟩ := h3
  have hmean2 : (vs.foldl stats.update (stats.initialise mag)).mean.getD idx 0
      = (vs.map (fun v => v.getD idx 0)).sum / (vs.length : ℚ) := by
    rw [hmean]
    simp [List.length_map]
  refine ⟨hmean2, ?_⟩
  rw [hres, stats.residual_closed, List.map_map, hmean2]
  simp only [Function.comp_def, List.length_map]

/-- Witness for claim C9: one element block (`mag` of length 4) and two
updates; the hypothesis holds and the conclusion is given by the theorem
at index 0. -/
theorem claim_C9_witness :
    (([[1, 2, 3, 4], [3, 6, 9, 12]] : List (List ℚ)).foldl stats.update
        (stats.initialise [0, 0, 0, 0])).mean_counter =
      ((([[1, 2, 3, 4], [3, 6, 9, 12]] : List (List ℚ))).length : ℚ) ∧
    (([[1, 2, 3, 4], [3, 6, 9, 12]] : List (List ℚ)).foldl stats.update
        (stats.initialise [0, 0, 0, 0])).mean.getD 0 0 =
      (([[1, 2, 3, 4], [3, 6, 9, 12]] : List (List ℚ)).map
        (fun v => v.getD 0 0)).sum /
        ((([[1, 2, 3, 4], [3, 6, 9, 12]] : List (List ℚ))).length : ℚ) :=
  ⟨(claim_C9 [0, 0, 0, 0] [[1, 2, 3, 4], [3, 6, 9, 12]]
      (by decide)).1,
   ((claim_C9 [0, 0, 0, 0] [[1, 2, 3, 4], [3, 6, 9, 12]]
      (by decide)).2 0 (by decide)).1⟩
